import Mathlib

/-!
Verification of the tree-option (configuration) layer of the oversight
supervision-tree library, embedded shallowly from
`vendor/cirello.io/oversight/tree_options.go`.

Go structs and constants that the option functions use but that are defined
in other files of the library (the `Tree` struct, the restart/shutdown
policy constructors, `DefaultChildProcessTimeout`) are modelled from the
design document; each such definition carries a `Modelled from the spec:`
doc comment.  Mutation of `*Tree` is embedded as explicit state passing;
`panic` is embedded as `Except.error` carrying the panic message together
with the tree state at the moment of the panic (a Go panic leaves the
already-performed pointer mutations in place).
-/

namespace Oversight

/-- Modelled from the spec: restart policies are a closed set of tagged
variants (Permanent / Transient / Temporary); in Go they are closures
`func(error) bool` built by `Permanent()`, `Transient()`, `Temporary()`,
which are not defined in this file of the source. -/
inductive RestartPolicy where
  | permanent
  | transient
  | temporary
deriving DecidableEq, Repr

/-- Go constructor `Permanent()`. -/
def Permanent : RestartPolicy := RestartPolicy.permanent

/-- Go constructor `Transient()`. -/
def Transient : RestartPolicy := RestartPolicy.transient

/-- Go constructor `Temporary()`. -/
def Temporary : RestartPolicy := RestartPolicy.temporary

/-- Modelled from the spec: shutdown policies are a closed set of tagged
variants, `Timeout d` or `Infinity`; durations are `time.Duration`
(an integer number of nanoseconds). -/
inductive ShutdownPolicy where
  | timeout (d : Int)
  | infinity
deriving DecidableEq, Repr

/-- Go constructor `Timeout(d)`. -/
def Timeout (d : Int) : ShutdownPolicy := ShutdownPolicy.timeout d

/-- Go constructor `Infinity()`. -/
def Infinity : ShutdownPolicy := ShutdownPolicy.infinity

/-- Modelled from the spec: the fixed default duration used when a child
specification carries no shutdown policy.  Its defining file is not part of
the sources here; the spec fixes only that it is one fixed constant, whose
exact value none of the verified properties depend on. -/
def DefaultChildProcessTimeout : Int := 5 * 1000000000

/-- Modelled from the spec: restart strategies are a closed set of tagged
variants (OneForOne / OneForAll / RestForOne); in Go they are closures
built by constructor functions not defined in this file of the source. -/
inductive Strategy where
  | oneForOne
  | oneForAll
  | restForOne
deriving DecidableEq, Repr

/-- Go constructor `OneForOne()`. -/
def OneForOne : Strategy := Strategy.oneForOne

/-- Go constructor `OneForAll()`. -/
def OneForAll : Strategy := Strategy.oneForAll

/-- Go constructor `RestForOne()`. -/
def RestForOne : Strategy := Strategy.restForOne

/-- Modelled from the spec: a child process body is an opaque Go closure
`func(context.Context) error`.  Closures are embedded as tagged atoms:
`user n` stands for a user-supplied function and `treeStart n` stands for
the bound method `subTree.Start` of the sub-tree identified by `n`
(as captured by `WithTree`). -/
inductive ChildProcess where
  | user (id : Nat)
  | treeStart (subTreeId : Nat)
deriving DecidableEq, Repr

/-- Go struct `ChildProcessSpecification` (modelled from the spec and from
the field accesses in `tree_options.go`): a name, an optional restart
policy, an optional shutdown policy and an optional start function; `none`
embeds Go `nil` / the zero value `""` for the name. -/
structure ChildProcessSpecification where
  Name : String
  Restart : Option RestartPolicy
  Shutdown : Option ShutdownPolicy
  Start : Option ChildProcess
deriving DecidableEq, Repr

/-- Modelled from the spec: the per-child runtime state entry appended at
registration time; before the child is started it only holds a stop
closure that logs "stopped before start". -/
inductive ProcState where
  | stoppedBeforeStart
deriving DecidableEq, Repr

/-- Go struct `Tree` (modelled from the spec and from the field accesses in
`tree_options.go`): intensity limits `maxR`/`maxT`, the strategy, the
insertion-ordered child specification list, the per-child runtime states,
the name-to-index map (embedded as an association list where a newer
binding shadows an older one, matching Go map assignment as observed by
lookup), and the logger (an opaque sink, embedded as a tag). -/
structure Tree where
  maxR : Int
  maxT : Int
  strategy : Strategy
  processes : List ChildProcessSpecification
  states : List ProcState
  processIndex : List (String × Nat)
  logger : Nat
deriving DecidableEq, Repr

/-- Go `WithRestartIntensity(maxR, maxT)`. -/
def WithRestartIntensity (maxR maxT : Int) (t : Tree) : Tree :=
  { t with maxR := maxR, maxT := maxT }

/-- Go `WithRestartStrategy(strategy)`. -/
def WithRestartStrategy (strategy : Strategy) (t : Tree) : Tree :=
  { t with strategy := strategy }

/-- Go `WithSpecification(maxR, maxT, strategy)`: applies
`WithRestartIntensity(maxR, maxT)` then `WithRestartStrategy(strategy)`. -/
def WithSpecification (maxR maxT : Int) (strategy : Strategy) (t : Tree) : Tree :=
  WithRestartStrategy strategy (WithRestartIntensity maxR maxT t)

/-- Go `NeverHalt()`: sets `t.maxR = -1`. -/
def NeverHalt (t : Tree) : Tree :=
  { t with maxR := -1 }

/-- Go constant `DefaultMaxR = 1`. -/
def DefaultMaxR : Int := 1

/-- Go constant `DefaultMaxT = 5 * time.Second` (nanoseconds). -/
def DefaultMaxT : Int := 5 * 1000000000

/-- Go `DefaultRestartIntensity()`. -/
def DefaultRestartIntensity (t : Tree) : Tree :=
  { t with maxR := DefaultMaxR, maxT := DefaultMaxT }

/-- Go `DefaultRestartStrategy()`. -/
def DefaultRestartStrategy (t : Tree) : Tree :=
  { t with strategy := OneForOne }

/-- Go `WithLogger(logger)`. -/
def WithLogger (logger : Nat) (t : Tree) : Tree :=
  { t with logger := logger }

/-- Go `Process(spec)` applied to a tree.  Mirrors the source line by line:
compute `id`, append a pre-start runtime state, default an empty name to
`"childproc <id>"`, suffix `" <id>"` once if the name is already a key of
`processIndex`, default a nil restart policy to `Permanent()` and a nil
shutdown policy to `Timeout(DefaultChildProcessTimeout)`, panic if the
start function is nil (the error carries the tree as mutated so far), and
finally append the specification and update the index. -/
def Process (spec : ChildProcessSpecification) (t : Tree) : Except (String × Tree) Tree :=
  let id := t.processes.length + 1
  let t1 : Tree := { t with states := t.states ++ [ProcState.stoppedBeforeStart] }
  let name1 := if spec.Name = "" then "childproc " ++ toString id else spec.Name
  let name2 := if (t1.processIndex.lookup name1).isSome then
      name1 ++ " " ++ toString id
    else
      name1
  let restart := match spec.Restart with
    | none => Permanent
    | some r => r
  let shutdown := match spec.Shutdown with
    | none => Timeout DefaultChildProcessTimeout
    | some s => s
  match spec.Start with
  | none => Except.error ("child process must always have a function", t1)
  | some start =>
      Except.ok { t1 with
        processes := t1.processes ++ [⟨name2, some restart, some shutdown, some start⟩],
        processIndex := (name2, id - 1) :: t1.processIndex }

/-- Go `Processes(processes...)`: registers each function in argument order
through `Process` with the `Permanent()` restart policy. -/
def Processes : List ChildProcess → Tree → Except (String × Tree) Tree
  | [], t => Except.ok t
  | p :: ps, t =>
      match Process { Name := "", Restart := some Permanent, Shutdown := none,
                      Start := some p } t with
      | Except.error e => Except.error e
      | Except.ok t1 => Processes ps t1

/-- The child specification built by Go `WithTree(subTree)`. -/
def withTreeSpec (subTreeId : Nat) : ChildProcessSpecification :=
  { Name := "", Restart := some Permanent, Shutdown := some Infinity,
    Start := some (ChildProcess.treeStart subTreeId) }

/-- Go `WithTree(subTree)`: registers the sub-tree's `Start` method as a
Permanent child with the Infinity shutdown policy. -/
def WithTree (subTreeId : Nat) (t : Tree) : Except (String × Tree) Tree :=
  Process (withTreeSpec subTreeId) t

/-- Folds any sequence of `Process` applications over a tree, stopping at
the first panic. -/
def applyAll : List ChildProcessSpecification → Tree → Except (String × Tree) Tree
  | [], t => Except.ok t
  | s :: ss, t =>
      match Process s t with
      | Except.error e => Except.error e
      | Except.ok t1 => applyAll ss t1

/-- The name a specification would be registered under, before the
suffixing collision check: an omitted name is auto-generated from the
registration index. -/
def autoName (spec : ChildProcessSpecification) (t : Tree) : String :=
  if spec.Name = "" then "childproc " ++ toString (t.processes.length + 1) else spec.Name

/-- The final registered name: the auto name, suffixed once with the
registration index when it collides with an existing index key. -/
def registeredName (spec : ChildProcessSpecification) (t : Tree) : String :=
  if (t.processIndex.lookup (autoName spec t)).isSome then
    autoName spec t ++ " " ++ toString (t.processes.length + 1)
  else
    autoName spec t

/-- The specification as stored by a successful `Process` call: final name,
defaulted restart and shutdown policies, the given start function. -/
def registeredSpec (spec : ChildProcessSpecification) (t : Tree)
    (start : ChildProcess) : ChildProcessSpecification :=
  { Name := registeredName spec t
    Restart := some (match spec.Restart with
      | none => Permanent
      | some r => r)
    Shutdown := some (match spec.Shutdown with
      | none => Timeout DefaultChildProcessTimeout
      | some s => s)
    Start := some start }

/-- The tree after a successful `Process` call. -/
def afterProcess (spec : ChildProcessSpecification) (t : Tree)
    (start : ChildProcess) : Tree :=
  { t with
    states := t.states ++ [ProcState.stoppedBeforeStart]
    processes := t.processes ++ [registeredSpec spec t start]
    processIndex := (registeredName spec t, t.processes.length + 1 - 1) :: t.processIndex }

/-- Modelled from the spec: a freshly constructed tree before any child is
registered (the constructor itself is not in this file of the source); it
carries the default intensity from `tree_options.go` and no children. -/
def emptyTree : Tree :=
  { maxR := DefaultMaxR, maxT := DefaultMaxT, strategy := OneForOne,
    processes := [], states := [], processIndex := [], logger := 0 }

/-- The final names of the registered children, in registration order. -/
def treeNames (t : Tree) : List String :=
  t.processes.map (fun s => s.Name)

/-- Invariant: every registered child's final name is a key of the
name-to-index map. -/
def namesIndexed (t : Tree) : Prop :=
  ∀ s ∈ t.processes, (t.processIndex.lookup s.Name).isSome = true

instance (t : Tree) : Decidable (namesIndexed t) := by
  unfold namesIndexed
  infer_instance

/-- First colliding specification of the name-uniqueness counterexample. -/
def cSpecA : ChildProcessSpecification :=
  { Name := "a 3", Restart := none, Shutdown := none, Start := some (ChildProcess.user 0) }

/-- Second colliding specification of the name-uniqueness counterexample. -/
def cSpecB : ChildProcessSpecification :=
  { Name := "a", Restart := none, Shutdown := none, Start := some (ChildProcess.user 1) }

/-- Third colliding specification of the name-uniqueness counterexample. -/
def cSpecC : ChildProcessSpecification :=
  { Name := "a", Restart := none, Shutdown := none, Start := some (ChildProcess.user 2) }

/-- The registration sequence that defeats the single-pass de-duplication. -/
def collidingRun : Except (String × Tree) Tree :=
  applyAll [cSpecA, cSpecB, cSpecC] emptyTree

/-- A specification with a nil start function. -/
def nilStartSpec : ChildProcessSpecification :=
  { Name := "x", Restart := none, Shutdown := none, Start := none }

/-- A concrete one-child tree used to instantiate hypotheses. -/
def oneTree : Tree :=
  afterProcess cSpecB emptyTree (ChildProcess.user 1)

/-- A concrete two-child tree: the result of `Processes [user 3, user 4]`
on the empty tree. -/
def twoTree : Tree :=
  afterProcess
    { Name := "", Restart := some Permanent, Shutdown := none,
      Start := some (ChildProcess.user 4) }
    (afterProcess
      { Name := "", Restart := some Permanent, Shutdown := none,
        Start := some (ChildProcess.user 3) }
      emptyTree (ChildProcess.user 3))
    (ChildProcess.user 4)

/-- The concrete tree produced by the colliding registration sequence. -/
def collidedTree : Tree :=
  afterProcess cSpecC
    (afterProcess cSpecB
      (afterProcess cSpecA emptyTree (ChildProcess.user 0))
      (ChildProcess.user 1))
    (ChildProcess.user 2)

/-- A specification whose name collides with the one child of `oneTree`. -/
def cSpecD : ChildProcessSpecification :=
  { Name := "a", Restart := none, Shutdown := none, Start := some (ChildProcess.user 7) }

end Oversight

namespace Oversight

/-- A successful `Process` call is exactly `afterProcess`. -/
theorem Process_ok_eq (spec : ChildProcessSpecification) (t : Tree)
    (start : ChildProcess) (h : spec.Start = some start) :
    Process spec t = Except.ok (afterProcess spec t start) := by
  simp only [Process, afterProcess, registeredSpec, registeredName, autoName, h]

/-- A `Process` call on a nil start function is exactly the panic, carrying
the tree with only the runtime-state entry appended. -/
theorem Process_error_eq (spec : ChildProcessSpecification) (t : Tree)
    (h : spec.Start = none) :
    Process spec t = Except.error ("child process must always have a function",
      { t with states := t.states ++ [ProcState.stoppedBeforeStart] }) := by
  simp only [Process, h]

/-- C10: applying WithSpecification(maxR, maxT, strategy) yields exactly the
same tree state as applying WithRestartIntensity(maxR, maxT) followed by
WithRestartStrategy(strategy). -/
theorem withSpecification_eq_composition (maxR maxT : Int) (strategy : Strategy)
    (t : Tree) :
    WithSpecification maxR maxT strategy t
      = WithRestartStrategy strategy (WithRestartIntensity maxR maxT t) := rfl

/-- C6: NeverHalt sets maxR to -1 and leaves maxT, the strategy, the child
list, the runtime states, the name index and the logger unchanged. -/
theorem neverHalt_sets_only_maxR (t : Tree) :
    (NeverHalt t).maxR = -1 ∧ (NeverHalt t).maxT = t.maxT ∧
    (NeverHalt t).strategy = t.strategy ∧ (NeverHalt t).processes = t.processes ∧
    (NeverHalt t).states = t.states ∧ (NeverHalt t).processIndex = t.processIndex ∧
    (NeverHalt t).logger = t.logger :=
  ⟨rfl, rfl, rfl, rfl, rfl, rfl, rfl⟩

/-- C2: a specification with a nil start function makes Process panic at
registration time with the tree's child list untouched; the call never
returns a registered tree. -/
theorem process_missing_start_panics (spec : ChildProcessSpecification) (t : Tree)
    (h : spec.Start = none) :
    Process spec t = Except.error ("child process must always have a function",
      { t with states := t.states ++ [ProcState.stoppedBeforeStart] }) ∧
    ({ t with states := t.states ++ [ProcState.stoppedBeforeStart] } : Tree).processes
      = t.processes ∧
    ∀ t', Process spec t ≠ Except.ok t' := by
  refine ⟨Process_error_eq spec t h, rfl, ?_⟩
  intro t'
  rw [Process_error_eq spec t h]
  simp

theorem process_missing_start_panics_witness :
    Process nilStartSpec emptyTree
      = Except.error ("child process must always have a function",
        { emptyTree with states := emptyTree.states ++ [ProcState.stoppedBeforeStart] }) ∧
    ({ emptyTree with states := emptyTree.states ++ [ProcState.stoppedBeforeStart] } : Tree).processes
      = emptyTree.processes ∧
    ∀ t', Process nilStartSpec emptyTree ≠ Except.ok t' :=
  process_missing_start_panics nilStartSpec emptyTree rfl

/-- C3: a specification with a nil restart policy is registered with the
Permanent restart policy. -/
theorem process_defaults_restart_permanent (spec : ChildProcessSpecification)
    (t : Tree) (start : ChildProcess) (hs : spec.Start = some start)
    (hr : spec.Restart = none) :
    Process spec t = Except.ok (afterProcess spec t start) ∧
    (afterProcess spec t start).processes.getLast?
      = some (registeredSpec spec t start) ∧
    (registeredSpec spec t start).Restart = some Permanent := by
  refine ⟨Process_ok_eq spec t start hs, ?_, ?_⟩
  · simp [afterProcess]
  · simp [registeredSpec, hr]

theorem process_defaults_restart_permanent_witness :
    Process cSpecB emptyTree
      = Except.ok (afterProcess cSpecB emptyTree (ChildProcess.user 1)) ∧
    (afterProcess cSpecB emptyTree (ChildProcess.user 1)).processes.getLast?
      = some (registeredSpec cSpecB emptyTree (ChildProcess.user 1)) ∧
    (registeredSpec cSpecB emptyTree (ChildProcess.user 1)).Restart = some Permanent :=
  process_defaults_restart_permanent cSpecB emptyTree (ChildProcess.user 1) rfl rfl

/-- C4: a specification with a nil shutdown policy is registered with the
Timeout(DefaultChildProcessTimeout) shutdown policy. -/
theorem process_defaults_shutdown_timeout (spec : ChildProcessSpecification)
    (t : Tree) (start : ChildProcess) (hs : spec.Start = some start)
    (hd : spec.Shutdown = none) :
    Process spec t = Except.ok (afterProcess spec t start) ∧
    (afterProcess spec t start).processes.getLast?
      = some (registeredSpec spec t start) ∧
    (registeredSpec spec t start).Shutdown = some (Timeout DefaultChildProcessTimeout) := by
  refine ⟨Process_ok_eq spec t start hs, ?_, ?_⟩
  · simp [afterProcess]
  · simp [registeredSpec, hd]

theorem process_defaults_shutdown_timeout_witness :
    Process cSpecA emptyTree
      = Except.ok (afterProcess cSpecA emptyTree (ChildProcess.user 0)) ∧
    (afterProcess cSpecA emptyTree (ChildProcess.user 0)).processes.getLast?
      = some (registeredSpec cSpecA emptyTree (ChildProcess.user 0)) ∧
    (registeredSpec cSpecA emptyTree (ChildProcess.user 0)).Shutdown
      = some (Timeout DefaultChildProcessTimeout) :=
  process_defaults_shutdown_timeout cSpecA emptyTree (ChildProcess.user 0) rfl rfl

/-- C7: WithTree registers exactly one child whose start function is the
sub-tree's Start method, whose shutdown policy is Infinity, and whose
restart policy is Permanent. -/
theorem withTree_registers_subtree_start (sid : Nat) (t : Tree) :
    WithTree sid t
      = Except.ok (afterProcess (withTreeSpec sid) t (ChildProcess.treeStart sid)) ∧
    (afterProcess (withTreeSpec sid) t (ChildProcess.treeStart sid)).processes
      = t.processes ++ [registeredSpec (withTreeSpec sid) t (ChildProcess.treeStart sid)] ∧
    (registeredSpec (withTreeSpec sid) t (ChildProcess.treeStart sid)).Start
      = some (ChildProcess.treeStart sid) ∧
    (registeredSpec (withTreeSpec sid) t (ChildProcess.treeStart sid)).Shutdown
      = some Infinity ∧
    (registeredSpec (withTreeSpec sid) t (ChildProcess.treeStart sid)).Restart
      = some Permanent :=
  ⟨Process_ok_eq (withTreeSpec sid) t (ChildProcess.treeStart sid) rfl,
   rfl, rfl, rfl, rfl⟩

end Oversight

namespace Oversight

/-- Unfolding lemma: registering `p :: ps` first registers `p` (which always
succeeds, the start function being present) and then the rest. -/
theorem Processes_cons (p : ChildProcess) (ps : List ChildProcess) (t : Tree) :
    Processes (p :: ps) t
      = Processes ps (afterProcess
          { Name := "", Restart := some Permanent, Shutdown := none, Start := some p }
          t p) := by
  have hp := Process_ok_eq
    { Name := "", Restart := some Permanent, Shutdown := none, Start := some p } t p rfl
  simp [Processes, hp]

/-- A successful registration grows the runtime-state list and the child
list by exactly one entry each. -/
theorem Process_ok_lengths (spec : ChildProcessSpecification) (t t' : Tree)
    (h : Process spec t = Except.ok t') :
    t'.states.length = t.states.length + 1 ∧
    t'.processes.length = t.processes.length + 1 := by
  cases hs : spec.Start with
  | none =>
      rw [Process_error_eq spec t hs] at h
      exact absurd h (by simp)
  | some start =>
      rw [Process_ok_eq spec t start hs] at h
      injection h with h
      subst h
      simp [afterProcess]

/-- Shape of a successful `Processes` run: the new specifications are
appended behind the existing ones, carry the given start functions in
argument order and the Permanent restart policy, and one runtime state is
added per registration. -/
theorem Processes_ok_shape (ps : List ChildProcess) : ∀ t : Tree,
    ∃ t' added, Processes ps t = Except.ok t' ∧
      t'.processes = t.processes ++ added ∧
      added.map (fun s => s.Start) = ps.map some ∧
      (∀ s ∈ added, s.Restart = some Permanent) ∧
      t'.states.length = t.states.length + ps.length := by
  induction ps with
  | nil =>
      intro t
      exact ⟨t, [], rfl, by simp, rfl, by simp, rfl⟩
  | cons p ps ih =>
      intro t
      obtain ⟨t', added, h1, h2, h3, h4, h5⟩ := ih (afterProcess
        { Name := "", Restart := some Permanent, Shutdown := none, Start := some p } t p)
      refine ⟨t', registeredSpec
        { Name := "", Restart := some Permanent, Shutdown := none, Start := some p }
        t p :: added, ?_, ?_, ?_, ?_, ?_⟩
      · rw [Processes_cons]
        exact h1
      · rw [h2]
        simp [afterProcess]
      · simp only [List.map_cons, h3]
        rfl
      · intro s hs
        rcases List.mem_cons.mp hs with hs | hs
        · subst hs
          rfl
        · exact h4 s hs
      · rw [h5]
        simp [afterProcess]
        omega

/-- C5: Process appends exactly one specification at the end of the child
list and keeps every previously registered specification unchanged in
content and position; Processes and WithTree keep the existing children as
an unchanged prefix; even a panicking Process call leaves the child list
untouched. -/
theorem register_append_only :
    (∀ (spec : ChildProcessSpecification) (t : Tree) (start : ChildProcess),
      spec.Start = some start →
        Process spec t = Except.ok (afterProcess spec t start) ∧
        (afterProcess spec t start).processes.length = t.processes.length + 1 ∧
        (afterProcess spec t start).processes.take t.processes.length = t.processes) ∧
    (∀ (ps : List ChildProcess) (t t' : Tree), Processes ps t = Except.ok t' →
        t'.processes.take t.processes.length = t.processes) ∧
    (∀ (sid : Nat) (t t' : Tree), WithTree sid t = Except.ok t' →
        t'.processes.take t.processes.length = t.processes ∧
        t'.processes.length = t.processes.length + 1) ∧
    (∀ (spec : ChildProcessSpecification) (t : Tree) (e : String × Tree),
      Process spec t = Except.error e → e.2.processes = t.processes) := by
  refine ⟨?_, ?_, ?_, ?_⟩
  · intro spec t start hs
    refine ⟨Process_ok_eq spec t start hs, ?_, ?_⟩
    · simp [afterProcess]
    · simp [afterProcess, List.take_left]
  · intro ps t t' h
    obtain ⟨t'', added, h1, h2, -, -, -⟩ := Processes_ok_shape ps t
    rw [h1] at h
    injection h with h
    subst h
    rw [h2, List.take_left]
  · intro sid t t' h
    simp only [WithTree] at h
    rw [Process_ok_eq (withTreeSpec sid) t (ChildProcess.treeStart sid) rfl] at h
    injection h with h
    subst h
    constructor
    · simp [afterProcess, List.take_left]
    · simp [afterProcess]
  · intro spec t e h
    cases hs : spec.Start with
    | none =>
        rw [Process_error_eq spec t hs] at h
        injection h with h
        subst h
        rfl
    | some start =>
        rw [Process_ok_eq spec t start hs] at h
        exact absurd h (by simp)

theorem register_append_only_witness :
    Process cSpecC oneTree = Except.ok (afterProcess cSpecC oneTree (ChildProcess.user 2)) ∧
    (afterProcess cSpecC oneTree (ChildProcess.user 2)).processes.length
      = oneTree.processes.length + 1 ∧
    (afterProcess cSpecC oneTree (ChildProcess.user 2)).processes.take
      oneTree.processes.length = oneTree.processes :=
  register_append_only.1 cSpecC oneTree (ChildProcess.user 2) rfl

/-- C8: Processes appends one specification per argument, in argument
order, each with the Permanent restart policy, leaving the previously
registered children unchanged. -/
theorem processes_appends_in_order (ps : List ChildProcess) (t t' : Tree)
    (h : Processes ps t = Except.ok t') :
    t'.processes.take t.processes.length = t.processes ∧
    t'.processes.length = t.processes.length + ps.length ∧
    (t'.processes.drop t.processes.length).map (fun s => s.Start) = ps.map some ∧
    ∀ s ∈ t'.processes.drop t.processes.length, s.Restart = some Permanent := by
  obtain ⟨t'', added, h1, h2, h3, h4, -⟩ := Processes_ok_shape ps t
  rw [h1] at h
  injection h with h
  subst h
  have hlen : added.length = ps.length := by
    have := congrArg List.length h3
    simpa using this
  refine ⟨?_, ?_, ?_, ?_⟩
  · rw [h2, List.take_left]
  · rw [h2]
    simp [hlen]
  · rw [h2, List.drop_left, h3]
  · intro s hs
    rw [h2, List.drop_left] at hs
    exact h4 s hs

theorem processes_appends_in_order_witness :
    twoTree.processes.take emptyTree.processes.length = emptyTree.processes ∧
    twoTree.processes.length = emptyTree.processes.length +
      [ChildProcess.user 3, ChildProcess.user 4].length ∧
    (twoTree.processes.drop emptyTree.processes.length).map (fun s => s.Start)
      = [ChildProcess.user 3, ChildProcess.user 4].map some ∧
    ∀ s ∈ twoTree.processes.drop emptyTree.processes.length,
      s.Restart = some Permanent :=
  processes_appends_in_order [ChildProcess.user 3, ChildProcess.user 4]
    emptyTree twoTree rfl

end Oversight

namespace Oversight

/-- Looking up the key just inserted at the head of the index succeeds. -/
theorem lookup_cons_self (k : String) (v : Nat) (m : List (String × Nat)) :
    ((k, v) :: m).lookup k = some v := by
  simp [List.lookup]

/-- Inserting a binding at the head of the index preserves the
resolvability of every key. -/
theorem lookup_cons_isSome (k k' : String) (v : Nat) (m : List (String × Nat))
    (h : (m.lookup k).isSome = true) :
    (((k', v) :: m).lookup k).isSome = true := by
  by_cases hk : k == k'
  · simp [List.lookup, hk]
  · simp [List.lookup, hk, h]

/-- C9: every successful registration appends exactly one runtime-state
entry together with the one child specification, so trees whose state count
equals their child count keep that equality across any sequence of Process,
Processes and WithTree applications. -/
theorem runtime_state_tracks_registration :
    (∀ (spec : ChildProcessSpecification) (t t' : Tree),
      Process spec t = Except.ok t' →
        t'.states.length = t.states.length + 1 ∧
        t'.processes.length = t.processes.length + 1) ∧
    (∀ (specs : List ChildProcessSpecification) (t t' : Tree),
      applyAll specs t = Except.ok t' →
      t.states.length = t.processes.length →
      t'.states.length = t'.processes.length) ∧
    (∀ (ps : List ChildProcess) (t t' : Tree),
      Processes ps t = Except.ok t' →
      t.states.length = t.processes.length →
      t'.states.length = t'.processes.length) ∧
    (∀ (sid : Nat) (t t' : Tree),
      WithTree sid t = Except.ok t' →
      t.states.length = t.processes.length →
      t'.states.length = t'.processes.length) := by
  have hstep : ∀ (spec : ChildProcessSpecification) (t t' : Tree),
      Process spec t = Except.ok t' →
        t'.states.length = t.states.length + 1 ∧
        t'.processes.length = t.processes.length + 1 := Process_ok_lengths
  refine ⟨hstep, ?_, ?_, ?_⟩
  · intro specs
    induction specs with
    | nil =>
        intro t t' h heq
        simp only [applyAll] at h
        injection h with h
        subst h
        exact heq
    | cons s ss ih =>
        intro t t' h heq
        cases hp : Process s t with
        | error e =>
            simp only [applyAll, hp] at h
            exact absurd h (by simp)
        | ok t1 =>
            simp only [applyAll, hp] at h
            obtain ⟨h1, h2⟩ := hstep s t t1 hp
            exact ih t1 t' h (by omega)
  · intro ps t t' h heq
    obtain ⟨t'', added, h1, h2, h3, -, h5⟩ := Processes_ok_shape ps t
    rw [h1] at h
    injection h with h
    subst h
    have hlen : added.length = ps.length := by
      have := congrArg List.length h3
      simpa using this
    rw [h5, h2]
    simp only [List.length_append]
    omega
  · intro sid t t' h heq
    simp only [WithTree] at h
    obtain ⟨h1, h2⟩ := hstep (withTreeSpec sid) t t' h
    omega

theorem runtime_state_tracks_registration_witness :
    collidedTree.states.length = collidedTree.processes.length :=
  runtime_state_tracks_registration.2.1 [cSpecA, cSpecB, cSpecC] emptyTree
    collidedTree rfl rfl

/-- C1 counterexample: registering the names "a 3", "a", "a" in that order
drives the single-pass de-duplication into a duplicate: the third child is
renamed to "a 3", which the first child already carries, so the final names
of the tree are not pairwise distinct. -/
theorem duplicate_child_names_cex :
    collidingRun = Except.ok collidedTree ∧
    treeNames collidedTree = ["a 3", "a", "a 3"] ∧
    ¬ (treeNames collidedTree).Nodup := by
  refine ⟨rfl, rfl, ?_⟩
  intro h
  rw [show treeNames collidedTree = ["a 3", "a", "a 3"] from rfl] at h
  exact absurd h (by decide)

/-- C1 (amended): an omitted name is auto-generated from the registration
index and a colliding name is de-duplicated by appending the registration
index once; the new child's name differs from every previously registered
name when no collision occurs, and differs from the directly colliding name
when one does, but the suffixed name may still coincide with a different
previously registered name, so pairwise distinctness of all final names is
not guaranteed. -/
theorem registered_name_collision_behavior (spec : ChildProcessSpecification)
    (t : Tree) (start : ChildProcess) (hs : spec.Start = some start)
    (hinv : namesIndexed t) :
    Process spec t = Except.ok (afterProcess spec t start) ∧
    namesIndexed (afterProcess spec t start) ∧
    ((t.processIndex.lookup (autoName spec t)).isSome = false →
      ∀ s ∈ t.processes, registeredName spec t ≠ s.Name) ∧
    ((t.processIndex.lookup (autoName spec t)).isSome = true →
      registeredName spec t
        = autoName spec t ++ " " ++ toString (t.processes.length + 1) ∧
      registeredName spec t ≠ autoName spec t) := by
  refine ⟨Process_ok_eq spec t start hs, ?_, ?_, ?_⟩
  · intro s hsmem
    simp only [afterProcess, List.mem_append, List.mem_singleton] at hsmem
    rcases hsmem with hsmem | hsmem
    · exact lookup_cons_isSome s.Name (registeredName spec t) _ _ (hinv s hsmem)
    · subst hsmem
      show ((((registeredName spec t, _) :: t.processIndex : List (String × Nat))).lookup
        (registeredSpec spec t start).Name).isSome = true
      rw [show (registeredSpec spec t start).Name = registeredName spec t from rfl]
      rw [lookup_cons_self]
      rfl
  · intro hno s hsmem heq
    have hreg : registeredName spec t = autoName spec t := by
      simp [registeredName, hno]
    rw [hreg] at heq
    have := hinv s hsmem
    rw [← heq] at this
    rw [hno] at this
    exact absurd this (by simp)
  · intro hyes
    have hreg : registeredName spec t
        = autoName spec t ++ " " ++ toString (t.processes.length + 1) := by
      simp [registeredName, hyes]
    refine ⟨hreg, ?_⟩
    rw [hreg]
    intro heq
    have hl := congrArg String.length heq
    simp only [String.length_append] at hl
    have h1 : (" " : String).length = 1 := rfl
    omega

theorem registered_name_collision_behavior_witness :
    Process cSpecD oneTree
      = Except.ok (afterProcess cSpecD oneTree (ChildProcess.user 7)) ∧
    namesIndexed (afterProcess cSpecD oneTree (ChildProcess.user 7)) ∧
    ((oneTree.processIndex.lookup (autoName cSpecD oneTree)).isSome = false →
      ∀ s ∈ oneTree.processes, registeredName cSpecD oneTree ≠ s.Name) ∧
    ((oneTree.processIndex.lookup (autoName cSpecD oneTree)).isSome = true →
      registeredName cSpecD oneTree
        = autoName cSpecD oneTree ++ " " ++ toString (oneTree.processes.length + 1) ∧
      registeredName cSpecD oneTree ≠ autoName cSpecD oneTree) :=
  registered_name_collision_behavior cSpecD oneTree (ChildProcess.user 7) rfl (by decide)

end Oversight
